import Mathlib

/-!
# Verification of the FlyTeam collector crawl engine

A shallow embedding of the crawler in `flyteam_collector` (`main.py`,
`scraper.py`, `models.py`) together with proofs about it.

Modelling conventions:
* The HTTP layer, the HTML tree (BeautifulSoup) and the database are external
  collaborators; their *observable results* (attempt outcomes, extracted node
  texts and hrefs, save success) are inputs of the embedded functions, while
  all control flow, counter updates, validation and deduplication logic of the
  Python source is translated faithfully.
* Python `set` objects are modelled as `List` values used only through
  membership; `asyncio.Queue` is a FIFO list.
* Durations and counters use `ℚ` and `Nat`; `random.uniform(0, 1)` jitter and
  monotonic-clock latencies are universally quantified rational inputs.
-/

/-! ## Constants (main.py, module level) -/

def MAX_ATTEMPTS : Nat := 5

def RETRY_BASE_DELAY : ℚ := 1/2

def REQUEST_TIMEOUT : ℚ := 15

/-- The `timeout=5.0` argument of `asyncio.wait_for` in `_worker`. -/
def WORKER_DEQUEUE_TIMEOUT : ℚ := 5

/-! ## Run statistics (the `self._stats` dict of `FlyTeamCrawler.__init__`) -/

structure Stats where
  fetched : Nat
  saved : Nat
  skipped : Nat
  fetch_errors : Nat
  db_errors : Nat
  countries : Nat
  airlines : Nat
  list_pages : Nat
  alias_crawls : Nat
  http_time_total : ℚ
deriving DecidableEq, Repr

/-- All statistics counters at zero (`FlyTeamCrawler.__init__`). -/
def Stats.init : Stats := ⟨0, 0, 0, 0, 0, 0, 0, 0, 0, 0⟩

/-! ## URL kinds (`class UrlType(Enum)`) -/

inductive UrlType where
  | COUNTRY
  | AIRLINE
  | LIST
  | DETAIL
deriving DecidableEq, Repr

/-! ## Visited set, queue and `_try_visit` / `_enqueue`

`self._visited` is a Python `set`, used only via membership tests and `add`;
`self._url_queue` is an `asyncio.Queue` of `(url, url_type)` pairs.
`enqLog` is a specification-only history of every `put_nowait` call, letting
us state "no URL is ever placed on the queue twice" across dequeues. -/

structure CrawlerVisitState where
  visited : List String
  queue : List (String × UrlType)
  enqLog : List (String × UrlType)
deriving DecidableEq, Repr

def CrawlerVisitState.init : CrawlerVisitState := ⟨[], [], []⟩

/-- `FlyTeamCrawler._try_visit` (main.py lines 101-109): membership test and
insertion with no `await` in between, returning whether the url was new. -/
def _try_visit (s : CrawlerVisitState) (url : String) : Bool × CrawlerVisitState :=
  if url ∈ s.visited then (false, s)
  else (true, { s with visited := url :: s.visited })

/-- `FlyTeamCrawler._enqueue` (main.py lines 183-186): visit check plus
`put_nowait((url, url_type))` when the check succeeds. -/
def _enqueue (s : CrawlerVisitState) (url : String) (t : UrlType) : CrawlerVisitState :=
  match _try_visit s url with
  | (true, s') =>
      { s' with queue := s'.queue ++ [(url, t)], enqLog := s'.enqLog ++ [(url, t)] }
  | (false, s') => s'

/-- `self._url_queue.get()`: FIFO removal of the head element. -/
def queueGet (s : CrawlerVisitState) :
    Option ((String × UrlType) × CrawlerVisitState) :=
  match s.queue with
  | [] => none
  | p :: rest => some (p, { s with queue := rest })

/-- One scheduler-level event touching the shared visited set and queue:
a bare `_try_visit`, an `_enqueue`, or a worker dequeue. -/
inductive CrawlOp where
  | visit (url : String)
  | enq (url : String) (t : UrlType)
  | deq
deriving DecidableEq, Repr

def applyOp (s : CrawlerVisitState) : CrawlOp → CrawlerVisitState
  | .visit u => (_try_visit s u).2
  | .enq u t => _enqueue s u t
  | .deq =>
      match queueGet s with
      | none => s
      | some (_, s') => s'

/-- Run a sequence of events from a given state. -/
def runFrom (s : CrawlerVisitState) (ops : List CrawlOp) : CrawlerVisitState :=
  ops.foldl applyOp s

/-- Run a sequence of events from the initial (run-start) state. -/
def runOps (ops : List CrawlOp) : CrawlerVisitState :=
  runFrom CrawlerVisitState.init ops

/-- Whether an event mentions the url `u` as its argument. -/
def opTouches (u : String) : CrawlOp → Bool
  | .visit v => v == u
  | .enq v _ => v == u
  | .deq => false

/-! ## The fetch primitive `FlyTeamCrawler._fetch` (main.py lines 114-178)

The outcome of each HTTP attempt is an input (index → outcome).  `elapsed` is
the wall-clock duration of the attempt (`time.monotonic() - t0`); for a
successful attempt it is also the latency added to `http_time_total`.
`retryAfter` is the parsed `Retry-After` header when present.  The shutdown
flag is modelled by the absolute time `T` at which it becomes set (`none` =
never); the code observes it only at the top of the attempt loop. -/

inductive AttemptOutcome where
  /-- The request produced a response with the given status code; `text` is
  the body (`await resp.text()`). -/
  | response (code : Nat) (text : String) (elapsed : ℚ) (retryAfter : Option Nat)
  /-- `aiohttp.ClientError` or `asyncio.TimeoutError` raised after `elapsed`
  seconds. -/
  | exn (elapsed : ℚ)
deriving DecidableEq, Repr

/-- The 5xx / transport-error backoff of lines 155 and 169:
`RETRY_BASE_DELAY * (2 ** attempt) + random.uniform(0, 1)`. -/
def serverErrorDelay (attempt : Nat) (jitter : ℚ) : ℚ :=
  RETRY_BASE_DELAY * 2 ^ attempt + jitter

/-- The sleep used for a 429 response with no `Retry-After` header:
`int(RETRY_BASE_DELAY * (2 ** attempt))` (line 144-147).  Python `int()`
truncates the float toward zero; the value is nonnegative, so this is the
floor. -/
def retryAfterDefault (attempt : Nat) : ℚ :=
  ((RETRY_BASE_DELAY * 2 ^ attempt : ℚ).floor : ℚ)

/-- `self._shutdown_event.is_set()` observed at absolute time `now`, with the
flag raised at time `T` (never, when `T = none`). -/
def shutdownSeen (T : Option ℚ) (now : ℚ) : Bool :=
  match T with
  | none => false
  | some t => decide (t ≤ now)

structure FetchResult where
  /-- The returned string (`""` on every non-success path). -/
  text : String
  stats : Stats
  /-- Number of HTTP requests actually issued. -/
  attemptsMade : Nat
  /-- Every `asyncio.sleep` duration, in order. -/
  sleeps : List ℚ
  /-- Absolute time at which `_fetch` returns. -/
  endTime : ℚ
deriving DecidableEq, Repr

/-- The attempt loop of `_fetch` (`for attempt in range(MAX_ATTEMPTS)`).
`fuel` is the number of loop iterations left, `attempt` the current index,
`now` the absolute time at the top of the loop, `made`/`sl` the attempts and
sleeps so far. -/
def _fetch_loop (o : Nat → AttemptOutcome) (j : Nat → ℚ) (T : Option ℚ)
    (attempt : Nat) (fuel : Nat) (now : ℚ) (st : Stats) (made : Nat)
    (sl : List ℚ) : FetchResult :=
  match fuel with
  | 0 =>
      -- loop exhausted: lines 176-178
      ⟨"", { st with fetch_errors := st.fetch_errors + 1 }, made, sl, now⟩
  | fuel' + 1 =>
      if shutdownSeen T now then
        -- lines 128-129
        ⟨"", st, made, sl, now⟩
      else
        match o attempt with
        | .response code text elapsed retryAfter =>
            if code < 300 then
              -- lines 136-141
              ⟨text,
                { st with fetched := st.fetched + 1,
                          http_time_total := st.http_time_total + elapsed },
                made + 1, sl, now + elapsed⟩
            else if code = 429 then
              -- lines 143-152
              let d : ℚ :=
                match retryAfter with
                | some n => (n : ℚ)
                | none => retryAfterDefault attempt
              _fetch_loop o j T (attempt + 1) fuel' (now + elapsed + d) st
                (made + 1) (sl ++ [d])
            else if 500 ≤ code then
              -- lines 154-161
              let d := serverErrorDelay attempt (j attempt)
              _fetch_loop o j T (attempt + 1) fuel' (now + elapsed + d) st
                (made + 1) (sl ++ [d])
            else
              -- lines 163-166: remaining 3xx/4xx, no retry
              ⟨"", { st with skipped := st.skipped + 1 }, made + 1, sl,
                now + elapsed⟩
        | .exn elapsed =>
            -- lines 168-174
            let d := serverErrorDelay attempt (j attempt)
            _fetch_loop o j T (attempt + 1) fuel' (now + elapsed + d) st
              (made + 1) (sl ++ [d])

/-- `FlyTeamCrawler._fetch`, starting at time 0 with the given statistics. -/
def _fetch (o : Nat → AttemptOutcome) (j : Nat → ℚ) (T : Option ℚ)
    (st : Stats) : FetchResult :=
  _fetch_loop o j T 0 MAX_ATTEMPTS 0 st 0 []

/-! ## The worker loop `FlyTeamCrawler._worker` (main.py lines 283-315) -/

/-- Result of the bounded dequeue `asyncio.wait_for(self._url_queue.get(),
timeout=5.0)`: either a timeout (recording whether `self._url_queue.empty()`
held at that instant) or an item (recording whether the dispatched handler
raised). -/
inductive DequeueResult where
  | timeout (queueEmpty : Bool)
  | got (item : String × UrlType) (handlerRaises : Bool)
deriving DecidableEq, Repr

/-- What one iteration of the worker loop observes. -/
structure WorkerObs where
  /-- `self._shutdown_event.is_set()` at the top of the loop. -/
  shutdownSet : Bool
  deq : DequeueResult
deriving DecidableEq, Repr

/-- One iteration of the `while True` loop of `_worker`; `true` means the
loop breaks (the worker reaches its terminal state). -/
def _worker_iter (obs : WorkerObs) : Bool :=
  if obs.shutdownSet then
    true -- lines 293-294
  else
    match obs.deq with
    | .timeout queueEmpty =>
        -- lines 300-306
        if queueEmpty then true else false
    | .got _ _ =>
        -- lines 308-315: the handler runs inside try/except; any exception
        -- is logged and swallowed, `task_done` runs, the loop continues
        false

/-! ## Python string primitives

Lean 4.14 strings are `structure String where data : List Char`, so the
Python operations are defined on the character list. -/

/-- `str.upper()` (character-wise; the pages use ASCII registration codes). -/
def pyUpper (s : String) : String :=
  ⟨s.data.map Char.toUpper⟩

/-- The characters removed by `str.strip()`. -/
def stripLeft (l : List Char) : List Char :=
  l.dropWhile Char.isWhitespace

/-- Remove leading and trailing whitespace from a character list. -/
def stripChars (l : List Char) : List Char :=
  ((stripLeft l).reverse.dropWhile Char.isWhitespace).reverse

/-- `str.strip()`. -/
def pyStrip (s : String) : String :=
  ⟨stripChars s.data⟩

/-- `str.rstrip('/')`: drop trailing `'/'` characters (used on URLs). -/
def pyRstripSlash (s : String) : String :=
  ⟨(s.data.reverse.dropWhile (fun c => c == '/')).reverse⟩

/-- `s.count('/')`. -/
def countSlash (s : String) : Nat :=
  s.data.count '/'

/-- `scraper._clean`: `re.sub(r'\s+', ' ', text).strip()` — squeeze every
whitespace run to one space, then strip.  `squeezeWs` performs the
substitution. -/
def squeezeWs : List Char → List Char
  | [] => []
  | c :: cs =>
      if c.isWhitespace then ' ' :: squeezeWs (cs.dropWhile Char.isWhitespace)
      else c :: squeezeWs cs
termination_by l => l.length
decreasing_by
  · simp only [List.length_cons]
    exact Nat.lt_succ_of_le (List.dropWhile_sublist _).length_le
  · simp

def _clean (s : String) : String :=
  pyStrip ⟨squeezeWs s.data⟩

/-- `list(dict.fromkeys(xs))`: insertion-ordered deduplication — each element
is appended to the output exactly when it has not been seen yet. -/
def pyDedupAux [DecidableEq α] (acc : List α) : List α → List α
  | [] => acc
  | x :: xs => if x ∈ acc then pyDedupAux acc xs else pyDedupAux (acc ++ [x]) xs

def pyDedup [DecidableEq α] (l : List α) : List α :=
  pyDedupAux [] l

/-! ## Data models (models.py)

Each dataclass is a structure; its `__post_init__` normalisation and
`ValueError`s become a `make` function returning `Except String`. -/

structure Aircraft where
  registration_number : String
  serial_number : Option String
  hex_code : Option String
deriving DecidableEq, Repr

/-- `Aircraft.__post_init__` (models.py lines 20-27). -/
def Aircraft.make (reg : String) (serial : Option String) (hex : Option String) :
    Except String Aircraft :=
  if pyStrip reg = "" then .error "registration_number must not be empty"
  else
    .ok { registration_number := pyUpper (pyStrip reg)
          serial_number :=
            match serial with
            | none => none
            | some s => if pyStrip s = "" then none else some (pyStrip s)
          hex_code :=
            match hex with
            | none => none
            | some h =>
                let v := pyUpper (pyStrip h)
                if v = "" then none else some v }

structure AircraftHistory where
  registration_number : String
  airline_slug : String
  airline_name : String
  model : String
  operating_status : String
  term_start : String
  term_end : Option String
deriving DecidableEq, Repr

/-- `AircraftHistory.__post_init__` (models.py lines 41-55). -/
def AircraftHistory.make (reg slug name model status tstart : String)
    (tend : Option String) : Except String AircraftHistory :=
  if pyStrip reg = "" then .error "registration_number must not be empty"
  else if pyStrip tstart = "" then .error "term_start must not be empty"
  else
    .ok { registration_number := pyUpper (pyStrip reg)
          airline_slug := pyStrip slug
          airline_name := pyStrip name
          model := pyStrip model
          operating_status := pyStrip status
          term_start := pyStrip tstart
          term_end :=
            match tend with
            | none => none
            | some e => if pyStrip e = "" then none else some (pyStrip e) }

structure AircraftAlias where
  base_registration : String
  alias_registration : String
deriving DecidableEq, Repr

/-- `AircraftAlias.__post_init__` (models.py lines 64-74). -/
def AircraftAlias.make (base al : String) : Except String AircraftAlias :=
  if pyStrip base = "" then .error "base_registration must not be empty"
  else if pyStrip al = "" then .error "alias_registration must not be empty"
  else if pyUpper (pyStrip base) = pyUpper (pyStrip al) then
    .error "base and alias must differ"
  else
    .ok { base_registration := pyUpper (pyStrip base)
          alias_registration := pyUpper (pyStrip al) }

/-! ## Scraper (scraper.py)

BeautifulSoup tag traversal is the abstracted input: each parser receives the
ordered list of candidate node texts/hrefs its selectors would produce, and
performs the source's filtering, transformation and deduplication on them. -/

/-- The filter-and-transform step of `parse_country_links` (lines 42-52)
applied to the `href` of one `<a>` tag. -/
def countryHrefStep (region_filter : Option String) (href : String) :
    Option String :=
  if href.startsWith "/area/" ∧ 3 ≤ countSlash href then
    match region_filter with
    | some r =>
        if (href.splitOn "/").getD 2 "" = r then
          some (pyRstripSlash href ++ "/airline")
        else none
    | none => some (pyRstripSlash href ++ "/airline")
  else none

/-- The `country_urls` list before deduplication. -/
def countryRaw (hrefs : List String) (region_filter : Option String) :
    List String :=
  hrefs.filterMap (countryHrefStep region_filter)

/-- `parse_country_links` (scraper.py lines 30-53); `hrefs` are the `href`
values of `soup.find_all('a', href=True)` in document order. -/
def parse_country_links (hrefs : List String) (region_filter : Option String) :
    List String :=
  pyDedup (countryRaw hrefs region_filter)

/-- The `links` list of `parse_airline_links` before deduplication. -/
def airlineRaw (hrefs : List String) : List String :=
  hrefs.filter (fun h => h.startsWith "/airline/")

/-- `parse_airline_links` (scraper.py lines 60-74); `hrefs` are the hrefs of
`soup.select('.contents-item__header a')` in document order. -/
def parse_airline_links (hrefs : List String) : List String :=
  pyDedup (airlineRaw hrefs)

/-- The `registration_links` list of `parse_aircraft_list` before
deduplication: pattern-1 hrefs then pattern-2 hrefs, each filtered. -/
def aircraftListRaw (hrefs1 hrefs2 : List String) : List String :=
  hrefs1.filter (fun h => h.startsWith "/registration/")
    ++ hrefs2.filter (fun h => h.startsWith "/registration/")

/-- `parse_aircraft_list` (scraper.py lines 81-110); `hrefs1`/`hrefs2` are the
hrefs selected by the two table patterns, `nextHref` the href of
`div.next a` (`none` when the node or attribute is missing). -/
def parse_aircraft_list (hrefs1 hrefs2 : List String) (nextHref : Option String) :
    List String × Option String :=
  (pyDedup (aircraftListRaw hrefs1 hrefs2),
    match nextHref with
    | some h => if h = "" then none else some h
    | none => none)

/-! ## Individual aircraft page: `parse_aircraft_detail` (scraper.py 200-322)

A table row (`tbody tr` of a `.regnumber-table`) is abstracted as the node
texts and hrefs its selectors would yield.  Sub-extractors whose output the
claims never inspect (`_extract_serial_from_row`, `_extract_condition_text`,
`_extract_hex_code`) are abstracted as row/page inputs holding their result. -/

structure RegNode where
  /-- Raw text of the `.regnumber-table__regnumber a` node. -/
  text : String
  /-- Its `href` attribute (`none` when absent). -/
  href : Option String
deriving DecidableEq, Repr

structure RowData where
  /-- `.regnumber-table__regnumber a` inside the row, when present. -/
  regNode : Option RegNode
  /-- Result of `_extract_serial_from_row(tr)`. -/
  serial : Option String
  /-- `(text, href)` of `.regnumber-table__airline a`; href is `get('href', '')`. -/
  airlineNode : Option (String × String)
  /-- Text of the `.regnumber-table__airline` div (fallback), when present. -/
  airlineDivText : Option String
  /-- Text of `.regnumber-table__model a`, when present. -/
  modelText : Option String
  /-- `get_text()` of `.regnumber-table__term`, when present. -/
  termText : Option String
  /-- Result of `_extract_condition_text(td_data)`. -/
  conditionText : String
deriving DecidableEq, Repr

/-- A `tbody tr` row: `none` models a row without a `.regnumber-table__data`
cell (skipped by the `continue` at line 231). -/
def Row := Option RowData

/-- `href.rstrip('/').split('/')[-1]` (line 264). -/
def lastPathComponent (s : String) : String :=
  ((pyRstripSlash s).splitOn "/").getLastD ""

/-- `term_text.split('〜', 1)` applied at lines 279-283: returns
`(term_start, term_end)` after cleaning. -/
def splitTerm (term_text : String) : String × Option String :=
  if (term_text.splitOn "〜").length ≥ 2 then
    match term_text.splitOn "〜" with
    | [] => (term_text, none)
    | first :: rest =>
        let raw_end := _clean (String.intercalate "〜" rest)
        (_clean first, if raw_end = "" then none else some raw_end)
  else (term_text, none)

/-- Accumulator of the row loop of `parse_aircraft_detail`. -/
structure DetailAcc where
  histories : List AircraftHistory
  aliases : List AircraftAlias
  alias_links : List String
  serial_number : Option String
deriving DecidableEq, Repr

def DetailAcc.init : DetailAcc := ⟨[], [], [], none⟩

/-- The body of `for tr in table.select('tbody tr')` (scraper.py 228-304),
with `target` already normalised (`target_reg.strip().upper()`, line 216). -/
def processRow (target : String) (acc : DetailAcc) (row : Row) : DetailAcc :=
  match row with
  | none => acc
  | some d =>
      let row_reg :=
        match d.regNode with
        | some rn => pyUpper (_clean rn.text)
        | none => target
      if row_reg ≠ target then
        -- lines 237-248: foreign-registration row.  The alias append is
        -- guarded by `try/except ValueError`; the link append by
        -- `if reg_node and reg_node.get('href')` (present and non-empty).
        let newAliases :=
          match AircraftAlias.make target row_reg with
          | .ok a => acc.aliases ++ [a]
          | .error _ => acc.aliases
        let newLinks :=
          match d.regNode with
          | some rn =>
              match rn.href with
              | some h =>
                  if h ≠ "" then acc.alias_links ++ [h] else acc.alias_links
              | none => acc.alias_links
          | none => acc.alias_links
        { acc with aliases := newAliases, alias_links := newLinks }
      else
        -- lines 250-304: own-registration row
        let serial_number :=
          match acc.serial_number with
          | none => d.serial
          | some s => some s
        let (airline_slug, airline_name) :=
          match d.airlineNode with
          | some (txt, href) =>
              (if href ≠ "" then lastPathComponent href else "", _clean txt)
          | none =>
              match d.airlineDivText with
              | some t => ("", _clean t)
              | none => ("", "")
        let model :=
          match d.modelText with
          | some t => _clean t
          | none => ""
        let term_text :=
          match d.termText with
          | some t => _clean t
          | none => ""
        let (term_start, term_end) := splitTerm term_text
        let acc := { acc with serial_number := serial_number }
        if term_start = "" then acc
        else
          match AircraftHistory.make target airline_slug airline_name model
              d.conditionText term_start term_end with
          | .ok h => { acc with histories := acc.histories ++ [h] }
          | .error _ => acc

/-- The alias deduplication loop of lines 314-320 (`seen_alias_pairs`). -/
def dedupAliasPairsAux (seen : List (String × String))
    (out : List AircraftAlias) : List AircraftAlias → List AircraftAlias
  | [] => out
  | a :: rest =>
      let pair := (a.base_registration, a.alias_registration)
      if pair ∈ seen then dedupAliasPairsAux seen out rest
      else dedupAliasPairsAux (pair :: seen) (out ++ [a]) rest

def dedupAliasPairs (aliases : List AircraftAlias) : List AircraftAlias :=
  dedupAliasPairsAux [] [] aliases

/-- The full row scan of `parse_aircraft_detail`. -/
def detailScan (rows : List Row) (target : String) : DetailAcc :=
  rows.foldl (processRow target) DetailAcc.init

/-- The `alias_links` list before deduplication, for order statements. -/
def aliasLinksRaw (rows : List Row) (target_reg : String) : List String :=
  (detailScan rows (pyUpper (pyStrip target_reg))).alias_links

/-- `parse_aircraft_detail` (scraper.py 200-322).  `rows` are all
`tbody tr` rows of all `.regnumber-table` tables in document order,
`hexCode` the result of `_extract_hex_code(soup)`.  The `ValueError` a
dataclass can raise escapes this function only through `Aircraft` (line 307);
alias and history `ValueError`s are caught at lines 244-245 and 302-304. -/
def parse_aircraft_detail (rows : List Row) (hexCode : Option String)
    (target_reg : String) :
    Except String (Aircraft × List AircraftHistory × List AircraftAlias × List String) :=
  let target := pyUpper (pyStrip target_reg)
  let acc := detailScan rows target
  match Aircraft.make target acc.serial_number hexCode with
  | .error e => .error e
  | .ok aircraft =>
      .ok (aircraft, acc.histories, dedupAliasPairs acc.aliases,
        pyDedup acc.alias_links)

/-! ## The detail handler `FlyTeamCrawler._process_detail` (main.py 231-277)

`parsed` abstracts the outcome of `parse_aircraft_detail` on the fetched page
(`.error ()` = the call raised), `saveOk` the outcome of
`self._repo.save_aircraft_data` (`false` = it raised).  The whole body after
the fetch runs inside one `try/except Exception`. -/

def _process_detail (html : String)
    (parsed : Except Unit (Aircraft × List AircraftHistory × List AircraftAlias × List String))
    (saveOk : Bool) (st : Stats) (vs : CrawlerVisitState) :
    Stats × CrawlerVisitState :=
  if html = "" then (st, vs) -- lines 235-236
  else
    match parsed with
    | .error _ =>
        -- lines 275-277
        ({ st with db_errors := st.db_errors + 1 }, vs)
    | .ok (_, _, _, alias_links) =>
        if saveOk then
          let st := { st with saved := st.saved + 1 } -- line 246
          let st :=
            if alias_links ≠ [] then
              { st with alias_crawls := st.alias_crawls + alias_links.length }
            else st -- lines 270-271
          (st, alias_links.foldl (fun v l => _enqueue v l UrlType.DETAIL) vs)
        else
          -- save raised: caught at lines 275-277, `saved` never incremented
          ({ st with db_errors := st.db_errors + 1 }, vs)

/-! # Theorems -/

/-! ## Fetch-loop step lemmas -/

theorem fetch_loop_zero (o : Nat → AttemptOutcome) (j : Nat → ℚ) (T : Option ℚ)
    (a : Nat) (now : ℚ) (st : Stats) (made : Nat) (sl : List ℚ) :
    _fetch_loop o j T a 0 now st made sl =
      ⟨"", { st with fetch_errors := st.fetch_errors + 1 }, made, sl, now⟩ := by
  simp [_fetch_loop]

theorem fetch_loop_5xx (o : Nat → AttemptOutcome) (j : Nat → ℚ) (T : Option ℚ)
    (a fuel : Nat) (now : ℚ) (st : Stats) (made : Nat) (sl : List ℚ)
    (code : Nat) (text : String) (e : ℚ) (ra : Option Nat)
    (ho : o a = .response code text e ra) (hc : 500 ≤ code)
    (hT : shutdownSeen T now = false) :
    _fetch_loop o j T a (fuel + 1) now st made sl =
      _fetch_loop o j T (a + 1) fuel (now + e + serverErrorDelay a (j a)) st
        (made + 1) (sl ++ [serverErrorDelay a (j a)]) := by
  have h1 : ¬ code < 300 := by omega
  have h2 : code ≠ 429 := by omega
  simp [_fetch_loop, ho, hT, h1, h2, hc]

theorem fetch_loop_exn (o : Nat → AttemptOutcome) (j : Nat → ℚ) (T : Option ℚ)
    (a fuel : Nat) (now : ℚ) (st : Stats) (made : Nat) (sl : List ℚ)
    (e : ℚ) (ho : o a = .exn e) (hT : shutdownSeen T now = false) :
    _fetch_loop o j T a (fuel + 1) now st made sl =
      _fetch_loop o j T (a + 1) fuel (now + e + serverErrorDelay a (j a)) st
        (made + 1) (sl ++ [serverErrorDelay a (j a)]) := by
  simp [_fetch_loop, ho, hT]

theorem fetch_loop_4xx (o : Nat → AttemptOutcome) (j : Nat → ℚ) (T : Option ℚ)
    (a fuel : Nat) (now : ℚ) (st : Stats) (made : Nat) (sl : List ℚ)
    (code : Nat) (text : String) (e : ℚ) (ra : Option Nat)
    (ho : o a = .response code text e ra) (h3 : ¬ code < 300)
    (h429 : code ≠ 429) (h5 : code < 500) (hT : shutdownSeen T now = false) :
    _fetch_loop o j T a (fuel + 1) now st made sl =
      ⟨"", { st with skipped := st.skipped + 1 }, made + 1, sl, now + e⟩ := by
  have h2 : ¬ 500 ≤ code := by omega
  simp [_fetch_loop, ho, hT, h3, h429, h2]

/-- An attempt outcome that the retry policy treats as transient failure:
a 5xx response or a transport-level exception. -/
def failingOutcome (a : AttemptOutcome) : Prop :=
  (∃ code text e ra, a = .response code text e ra ∧ 500 ≤ code) ∨
    ∃ e, a = .exn e

theorem fetch_loop_all_fail (o : Nat → AttemptOutcome) (j : Nat → ℚ) :
    ∀ (fuel a : Nat) (now : ℚ) (st : Stats) (made : Nat) (sl : List ℚ),
      (∀ i, a ≤ i → i < a + fuel → failingOutcome (o i)) →
      ∃ sl' t', _fetch_loop o j none a fuel now st made sl =
        ⟨"", { st with fetch_errors := st.fetch_errors + 1 }, made + fuel, sl', t'⟩ := by
  intro fuel
  induction fuel with
  | zero =>
      intro a now st made sl _
      exact ⟨sl, now, by simp [fetch_loop_zero]⟩
  | succ fuel ih =>
      intro a now st made sl h
      have ha : failingOutcome (o a) := h a le_rfl (by omega)
      have hT : shutdownSeen none now = false := rfl
      rcases ha with ⟨code, text, e, ra, ho, hc⟩ | ⟨e, ho⟩
      · rw [fetch_loop_5xx o j none a fuel now st made sl code text e ra ho hc hT]
        rcases ih (a + 1) (now + e + serverErrorDelay a (j a)) st (made + 1)
            (sl ++ [serverErrorDelay a (j a)])
            (fun i h1 h2 => h i (by omega) (by omega)) with ⟨sl', t', hrec⟩
        exact ⟨sl', t', by rw [hrec]; congr 1; omega⟩
      · rw [fetch_loop_exn o j none a fuel now st made sl e ho hT]
        rcases ih (a + 1) (now + e + serverErrorDelay a (j a)) st (made + 1)
            (sl ++ [serverErrorDelay a (j a)])
            (fun i h1 h2 => h i (by omega) (by omega)) with ⟨sl', t', hrec⟩
        exact ⟨sl', t', by rw [hrec]; congr 1; omega⟩


/-- `Rat.floor` agrees with the `Int.floor` of the `FloorRing` instance. -/
theorem rat_floor_eq_intFloor (q : ℚ) : Rat.floor q = ⌊q⌋ := by
  apply le_antisymm
  · exact Int.le_floor.2 (Rat.le_floor.1 le_rfl)
  · exact Rat.le_floor.2 (Int.le_floor.1 le_rfl)

/-- Once the shutdown flag time has passed, the next top-of-loop check
returns immediately with everything unchanged. -/
theorem fetch_loop_shutdown (o : Nat → AttemptOutcome) (j : Nat → ℚ)
    (t : ℚ) (a fuel : Nat) (now : ℚ) (st : Stats) (made : Nat) (sl : List ℚ)
    (h : t ≤ now) :
    _fetch_loop o j (some t) a (fuel + 1) now st made sl =
      ⟨"", st, made, sl, now⟩ := by
  have hT : shutdownSeen (some t) now = true := by
    simp [shutdownSeen, h]
  simp [_fetch_loop, hT]

/-! ## C4 — attempt exhaustion on persistent transient failure -/

/-- C4: if every attempt of one `_fetch` call yields a 5xx response or a
transport-level error, `_fetch` makes exactly `MAX_ATTEMPTS` (= 5) attempts,
returns the empty string, and increments the fetch-error counter by exactly
one, leaving every other statistic (fetched, skipped, cumulative latency,
and the rest) unchanged. -/
theorem c4_all_attempts_fail (o : Nat → AttemptOutcome) (j : Nat → ℚ)
    (st : Stats) (h : ∀ i, i < MAX_ATTEMPTS → failingOutcome (o i)) :
    (∃ sl t, _fetch o j none st =
      ⟨"", { st with fetch_errors := st.fetch_errors + 1 }, MAX_ATTEMPTS, sl, t⟩) ∧
      MAX_ATTEMPTS = 5 := by
  refine ⟨?_, rfl⟩
  rcases fetch_loop_all_fail o j MAX_ATTEMPTS 0 0 st 0 []
      (fun i _ h2 => h i (by omega)) with ⟨sl, t, hrun⟩
  exact ⟨sl, t, by rw [_fetch, hrun]; norm_num⟩

theorem c4_all_attempts_fail_witness :
    (∃ sl t, _fetch (fun _ => .exn 0) (fun _ => 0) none Stats.init =
      ⟨"", { Stats.init with fetch_errors := Stats.init.fetch_errors + 1 },
        MAX_ATTEMPTS, sl, t⟩) ∧ MAX_ATTEMPTS = 5 :=
  c4_all_attempts_fail (fun _ => .exn 0) (fun _ => 0) Stats.init
    (fun _ _ => Or.inr ⟨0, rfl⟩)

/-! ## C7 — 4xx short-circuit -/

/-- C7: a first attempt answered by a 4xx status other than 429 makes
`_fetch` return the empty string after exactly that one attempt, with the
skipped counter incremented by one and the fetch-error counter (and all
other statistics) unchanged. -/
theorem c7_4xx_short_circuit (o : Nat → AttemptOutcome) (j : Nat → ℚ)
    (st : Stats) (code : Nat) (text : String) (e : ℚ) (ra : Option Nat)
    (h0 : o 0 = .response code text e ra) (h4 : 400 ≤ code) (h5 : code < 500)
    (h429 : code ≠ 429) :
    _fetch o j none st =
      ⟨"", { st with skipped := st.skipped + 1 }, 1, [], e⟩ := by
  rw [_fetch]
  rw [show MAX_ATTEMPTS = 4 + 1 from rfl]
  rw [fetch_loop_4xx o j none 0 4 0 st 0 [] code text e ra h0 (by omega) h429 h5 rfl]
  norm_num

theorem c7_4xx_short_circuit_witness :
    _fetch (fun _ => .response 404 "" 0 none) (fun _ => 0) none Stats.init =
      ⟨"", { Stats.init with skipped := Stats.init.skipped + 1 }, 1, [], 0⟩ :=
  c7_4xx_short_circuit (fun _ => .response 404 "" 0 none) (fun _ => 0)
    Stats.init 404 "" 0 none rfl (by norm_num) (by norm_num) (by norm_num)

/-! ## C2 — shutdown responsiveness of `_fetch` -/

/-- C2 (counterexample): the claim that a shutdown flag raised before or
during any attempt makes `_fetch` return "within one polling interval" and
increment no counter is false.
Scenario 1: the only attempt gets a 429 with `Retry-After: 100`; the flag is
raised at `t = 1/10`, during the retry sleep, yet the fetch returns only at
`t = 100`, i.e. `99.9` seconds later — far more than the system's 5-second
polling interval — because `asyncio.sleep` is never interrupted.
Scenario 2: a 404 attempt of duration 1 with the flag raised at `t = 1/2`
(mid-attempt) still increments the skipped counter.
Scenario 3: five 503 attempts of duration 1; the flag is raised at `t = 12`,
during the fifth attempt (which runs from `23/2` to `25/2`), yet the
fetch-error counter is still incremented by the exhaustion path. -/
theorem c2_shutdown_counterexample :
    (_fetch (fun _ => .response 429 "" 0 (some 100)) (fun _ => 0)
        (some (1/10)) Stats.init = ⟨"", Stats.init, 1, [100], 100⟩ ∧
      (100 : ℚ) - 1/10 > WORKER_DEQUEUE_TIMEOUT) ∧
    (_fetch (fun _ => .response 404 "" 1 none) (fun _ => 0) (some (1/2))
        Stats.init = ⟨"", { Stats.init with skipped := 1 }, 1, [], 1⟩ ∧
      (1/2 : ℚ) < 1) ∧
    ((_fetch (fun _ => .response 503 "" 1 none) (fun _ => 0) (some 12)
        Stats.init).stats.fetch_errors = Stats.init.fetch_errors + 1 ∧
      (23/2 : ℚ) < 12 ∧ (12 : ℚ) < 25/2) := by
  refine ⟨⟨?_, by norm_num [WORKER_DEQUEUE_TIMEOUT]⟩,
    ⟨?_, by norm_num⟩, ?_, by norm_num, by norm_num⟩ <;>
    norm_num [_fetch, _fetch_loop, shutdownSeen, serverErrorDelay,
      retryAfterDefault, RETRY_BASE_DELAY, MAX_ATTEMPTS, Stats.init]

/-- C2 (amended): once the shutdown flag is set, the very next top-of-loop
check of the attempt loop returns the empty string immediately — no further
HTTP attempts, no additional sleeps, and no change to any statistics
counter.  (The flag is observed only at those checks: a backoff sleep or an
attempt already in progress completes first, and when no check remains the
exhaustion path still runs; see the counterexample.) -/
theorem c2_shutdown_amended (o : Nat → AttemptOutcome) (j : Nat → ℚ)
    (t : ℚ) (a fuel : Nat) (now : ℚ) (st : Stats) (made : Nat) (sl : List ℚ)
    (h : t ≤ now) :
    _fetch_loop o j (some t) a (fuel + 1) now st made sl =
      ⟨"", st, made, sl, now⟩ :=
  fetch_loop_shutdown o j t a fuel now st made sl h

theorem c2_shutdown_amended_witness :
    _fetch_loop (fun _ => .exn 0) (fun _ => 0) (some 0) 0 (4 + 1) 0
      Stats.init 0 [] = ⟨"", Stats.init, 0, [], 0⟩ :=
  c2_shutdown_amended (fun _ => .exn 0) (fun _ => 0) 0 0 4 0 Stats.init 0 []
    le_rfl

/-! ## C5 — backoff delay monotonicity under jitter -/

/-- C5 (counterexample): with every attempt answered 503, the inter-attempt
delays are *not* non-decreasing for every jitter draw in `[0,1)`: jitter
`3/4` on the first attempt and `0` afterwards gives first delay `5/4` and
second delay `1`. -/
theorem c5_backoff_counterexample :
    (_fetch (fun _ => .response 503 "" 0 none)
        (fun n => if n = 0 then 3/4 else 0) none Stats.init).sleeps =
      [5/4, 1, 2, 4, 8] ∧
    ¬ ((5/4 : ℚ) ≤ 1) ∧
    ((0 : ℚ) ≤ 3/4 ∧ (3/4 : ℚ) < 1) ∧ ((0 : ℚ) ≤ 0 ∧ (0 : ℚ) < 1) := by
  refine ⟨?_, by norm_num, ⟨by norm_num, by norm_num⟩, by norm_num, by norm_num⟩
  norm_num [_fetch, _fetch_loop, shutdownSeen, serverErrorDelay,
    RETRY_BASE_DELAY, MAX_ATTEMPTS]

/-- C5 (amended): for a fetch whose every attempt receives a 503, the slept
delays are `serverErrorDelay k (jitter k)` for `k = 0..4`, and from the
second delay onward the sequence is strictly increasing for every jitter
draw in `[0,1)`; only the first-to-second step can decrease. -/
theorem c5_backoff_amended (o : Nat → AttemptOutcome) (j : Nat → ℚ)
    (st : Stats)
    (ho : ∀ i, i < MAX_ATTEMPTS → ∃ text e ra, o i = .response 503 text e ra)
    (hj : ∀ i, 0 ≤ j i ∧ j i < 1) :
    (_fetch o j none st).sleeps =
      [serverErrorDelay 0 (j 0), serverErrorDelay 1 (j 1),
        serverErrorDelay 2 (j 2), serverErrorDelay 3 (j 3),
        serverErrorDelay 4 (j 4)] ∧
    ∀ k, 1 ≤ k → serverErrorDelay k (j k) < serverErrorDelay (k + 1) (j (k + 1)) := by
  constructor
  · obtain ⟨t0, e0, r0, h0⟩ := ho 0 (by norm_num [MAX_ATTEMPTS])
    obtain ⟨t1, e1, r1, h1⟩ := ho 1 (by norm_num [MAX_ATTEMPTS])
    obtain ⟨t2, e2, r2, h2⟩ := ho 2 (by norm_num [MAX_ATTEMPTS])
    obtain ⟨t3, e3, r3, h3⟩ := ho 3 (by norm_num [MAX_ATTEMPTS])
    obtain ⟨t4, e4, r4, h4⟩ := ho 4 (by norm_num [MAX_ATTEMPTS])
    rw [_fetch, show MAX_ATTEMPTS = 4 + 1 from rfl,
      fetch_loop_5xx o j none 0 4 _ st _ _ 503 t0 e0 r0 h0 (by norm_num) rfl,
      fetch_loop_5xx o j none 1 3 _ st _ _ 503 t1 e1 r1 h1 (by norm_num) rfl,
      fetch_loop_5xx o j none 2 2 _ st _ _ 503 t2 e2 r2 h2 (by norm_num) rfl,
      fetch_loop_5xx o j none 3 1 _ st _ _ 503 t3 e3 r3 h3 (by norm_num) rfl,
      fetch_loop_5xx o j none 4 0 _ st _ _ 503 t4 e4 r4 h4 (by norm_num) rfl,
      fetch_loop_zero]
    simp
  · intro k hk
    have h2k : (2 : ℚ) ≤ 2 ^ k := by
      calc (2 : ℚ) = 2 ^ 1 := by norm_num
      _ ≤ 2 ^ k := by
          apply pow_le_pow_right₀ (by norm_num) hk
    have hjk := (hj k).2
    have hjk1 := (hj (k + 1)).1
    simp only [serverErrorDelay, RETRY_BASE_DELAY, pow_succ]
    nlinarith

theorem c5_backoff_amended_witness :
    (_fetch (fun _ => .response 503 "" 0 none) (fun _ => 0) none
        Stats.init).sleeps =
      [serverErrorDelay 0 0, serverErrorDelay 1 0, serverErrorDelay 2 0,
        serverErrorDelay 3 0, serverErrorDelay 4 0] ∧
    ∀ k, 1 ≤ k →
      serverErrorDelay k ((fun _ => (0 : ℚ)) k) <
        serverErrorDelay (k + 1) ((fun _ => (0 : ℚ)) (k + 1)) :=
  c5_backoff_amended (fun _ => .response 503 "" 0 none) (fun _ => 0)
    Stats.init (fun i _ => ⟨"", 0, none, rfl⟩)
    (fun _ => ⟨le_rfl, by norm_num⟩)

/-! ## C6 — 429 with absent Retry-After header -/

/-- C6 (counterexample): the claim that the sleep before the second attempt
is `RETRY_BASE_DELAY * 2 ^ 0 = 0.5` seconds is false: the source converts
the header default through `int(...)`, so the fetch sleeps `0` seconds after
the first 429, then `1`, `2`, `4` and `8`. -/
theorem c6_retry_after_counterexample :
    (_fetch (fun _ => .response 429 "" 0 none) (fun _ => 0) none
        Stats.init).sleeps = [0, 1, 2, 4, 8] ∧
    ¬ ((0 : ℚ) = 1/2) ∧ RETRY_BASE_DELAY * 2 ^ (0 : Nat) = 1/2 := by
  refine ⟨?_, by norm_num, by norm_num [RETRY_BASE_DELAY]⟩
  norm_num [_fetch, _fetch_loop, shutdownSeen, retryAfterDefault,
    rat_floor_eq_intFloor, RETRY_BASE_DELAY, MAX_ATTEMPTS]

/-- C6 (amended): a 429 response whose `Retry-After` header is absent makes
`_fetch` sleep exactly `int(RETRY_BASE_DELAY * 2 ^ attempt)` seconds — `0`
for the first attempt, `1` for the second, then `2`, `4`, `8` — and then
continue with the next attempt (the retry never terminates the fetch as a
failure while loop iterations remain). -/
theorem c6_retry_after_amended (o : Nat → AttemptOutcome) (j : Nat → ℚ)
    (a fuel : Nat) (now : ℚ) (st : Stats) (made : Nat) (sl : List ℚ)
    (text : String) (e : ℚ) (ho : o a = .response 429 text e none) :
    _fetch_loop o j none a (fuel + 1) now st made sl =
      _fetch_loop o j none (a + 1) fuel (now + e + retryAfterDefault a) st
        (made + 1) (sl ++ [retryAfterDefault a]) ∧
    retryAfterDefault 0 = 0 ∧ retryAfterDefault 1 = 1 ∧
      retryAfterDefault 2 = 2 ∧ retryAfterDefault 3 = 4 ∧
      retryAfterDefault 4 = 8 := by
  refine ⟨?_, ?_, ?_, ?_, ?_, ?_⟩
  · simp [_fetch_loop, ho, shutdownSeen]
  all_goals
    norm_num [retryAfterDefault, rat_floor_eq_intFloor, RETRY_BASE_DELAY]

theorem c6_retry_after_amended_witness :
    (_fetch_loop (fun _ => .response 429 "" 0 none) (fun _ => 0) none 0
        (4 + 1) 0 Stats.init 0 [] =
      _fetch_loop (fun _ => .response 429 "" 0 none) (fun _ => 0) none
        (0 + 1) 4 (0 + 0 + retryAfterDefault 0) Stats.init (0 + 1)
        ([] ++ [retryAfterDefault 0])) ∧
    retryAfterDefault 0 = 0 ∧ retryAfterDefault 1 = 1 ∧
      retryAfterDefault 2 = 2 ∧ retryAfterDefault 3 = 4 ∧
      retryAfterDefault 4 = 8 :=
  c6_retry_after_amended (fun _ => .response 429 "" 0 none) (fun _ => 0)
    0 4 0 Stats.init 0 [] "" 0 rfl

/-! ## C3 — worker termination condition -/

/-- C3: one iteration of the worker loop terminates the worker exactly when
the shutdown flag is observed set at the top of the loop, or the bounded
dequeue (5-second timeout) times out with the queue observed empty at that
instant; a timeout with a non-empty queue, and an item whose handler raises,
both leave the worker running. -/
theorem c3_worker_termination :
    (∀ obs : WorkerObs, _worker_iter obs = true ↔
      (obs.shutdownSet = true ∨ obs.deq = DequeueResult.timeout true)) ∧
    WORKER_DEQUEUE_TIMEOUT = 5 := by
  refine ⟨?_, rfl⟩
  intro obs
  obtain ⟨sd, deq⟩ := obs
  cases sd
  · cases deq with
    | timeout qe => cases qe <;> simp [_worker_iter]
    | got item r => simp [_worker_iter]
  · simp [_worker_iter]

/-! ## C1 — atomic admit-and-enqueue, global dedup -/

theorem try_visit_true_iff (s : CrawlerVisitState) (u : String) :
    (_try_visit s u).1 = true ↔ u ∉ s.visited := by
  by_cases h : u ∈ s.visited <;> simp [_try_visit, h]

theorem mem_visited_after_try_visit (s : CrawlerVisitState) (u : String) :
    u ∈ ((_try_visit s u).2).visited := by
  by_cases h : u ∈ s.visited <;> simp [_try_visit, h]

theorem visited_mono_applyOp (s : CrawlerVisitState) (op : CrawlOp)
    (u : String) (h : u ∈ s.visited) : u ∈ (applyOp s op).visited := by
  cases op with
  | visit v => by_cases hv : v ∈ s.visited <;> simp [applyOp, _try_visit, hv, h]
  | enq v t =>
      by_cases hv : v ∈ s.visited <;>
        simp [applyOp, _enqueue, _try_visit, hv, h]
  | deq =>
      cases hq : s.queue with
      | nil => simpa [applyOp, queueGet, hq] using h
      | cons p rest => simpa [applyOp, queueGet, hq] using h

theorem visited_mono_runFrom (ops : List CrawlOp) :
    ∀ (s : CrawlerVisitState) (u : String), u ∈ s.visited →
      u ∈ (runFrom s ops).visited := by
  induction ops with
  | nil => intro s u h; exact h
  | cons op rest ih =>
      intro s u h
      exact ih (applyOp s op) u (visited_mono_applyOp s op u h)


theorem visited_untouched_applyOp (s : CrawlerVisitState) (op : CrawlOp)
    (u : String) (h : u ∉ s.visited) (ht : opTouches u op = false) :
    u ∉ (applyOp s op).visited := by
  cases op with
  | visit v =>
      have hvu : v ≠ u := by simpa [opTouches] using ht
      have huv : u ≠ v := Ne.symm hvu
      by_cases hv : v ∈ s.visited <;>
        simp [applyOp, _try_visit, hv, h, huv]
  | enq v t =>
      have hvu : v ≠ u := by simpa [opTouches] using ht
      have huv : u ≠ v := Ne.symm hvu
      by_cases hv : v ∈ s.visited <;>
        simp [applyOp, _enqueue, _try_visit, hv, h, huv]
  | deq =>
      cases hq : s.queue with
      | nil => simpa [applyOp, queueGet, hq] using h
      | cons p rest => simpa [applyOp, queueGet, hq] using h

theorem visited_untouched_runFrom (ops : List CrawlOp) :
    ∀ (s : CrawlerVisitState) (u : String), u ∉ s.visited →
      (∀ op ∈ ops, opTouches u op = false) →
      u ∉ (runFrom s ops).visited := by
  induction ops with
  | nil => intro s u h _; exact h
  | cons op rest ih =>
      intro s u h hops
      exact ih (applyOp s op) u
        (visited_untouched_applyOp s op u h (hops op (by simp)))
        (fun o ho => hops o (by simp [ho]))

/-- The invariant tying queue, enqueue log and visited set together. -/
def VisitInv (s : CrawlerVisitState) : Prop :=
  (s.enqLog.map Prod.fst).Nodup ∧
    (∀ p ∈ s.enqLog, p.1 ∈ s.visited) ∧
    (∀ p ∈ s.queue, p ∈ s.enqLog)

theorem visitInv_init : VisitInv CrawlerVisitState.init := by
  refine ⟨by simp [CrawlerVisitState.init], ?_, ?_⟩ <;>
    simp [CrawlerVisitState.init]

theorem visitInv_applyOp (s : CrawlerVisitState) (op : CrawlOp)
    (h : VisitInv s) : VisitInv (applyOp s op) := by
  obtain ⟨hnd, hlog, hq⟩ := h
  cases op with
  | visit v =>
      by_cases hv : v ∈ s.visited
      · simpa [applyOp, _try_visit, hv] using ⟨hnd, hlog, hq⟩
      · refine ⟨by simpa [applyOp, _try_visit, hv] using hnd, ?_, ?_⟩
        · intro p hp
          have hp' : p ∈ s.enqLog := by
            simpa [applyOp, _try_visit, hv] using hp
          have : p.1 ∈ s.visited := hlog p hp'
          simp [applyOp, _try_visit, hv, this]
        · intro p hp
          have hp' : p ∈ s.queue := by
            simpa [applyOp, _try_visit, hv] using hp
          simpa [applyOp, _try_visit, hv] using hq p hp'
  | enq v t =>
      by_cases hv : v ∈ s.visited
      · exact ⟨by simpa [applyOp, _enqueue, _try_visit, hv] using hnd,
          by simpa [applyOp, _enqueue, _try_visit, hv] using hlog,
          by simpa [applyOp, _enqueue, _try_visit, hv] using hq⟩
      · have hvlog : v ∉ s.enqLog.map Prod.fst := by
          intro hmem
          rcases List.mem_map.1 hmem with ⟨p, hp, hfst⟩
          exact hv (hfst ▸ hlog p hp)
        have heq : applyOp s (CrawlOp.enq v t) =
            { s with visited := v :: s.visited
                     queue := s.queue ++ [(v, t)]
                     enqLog := s.enqLog ++ [(v, t)] } := by
          simp [applyOp, _enqueue, _try_visit, hv]
        rw [heq]
        refine ⟨?_, ?_, ?_⟩
        · show (List.map Prod.fst (s.enqLog ++ [(v, t)])).Nodup
          rw [List.map_append]
          refine List.Nodup.append hnd (List.nodup_singleton v) ?_
          intro a ha hb
          simp only [List.map_cons, List.map_nil, List.mem_singleton] at hb
          subst hb
          exact hvlog ha
        · intro p hp
          simp only [List.mem_append, List.mem_singleton] at hp
          rcases hp with hp | hp
          · exact List.mem_cons.2 (Or.inr (hlog p hp))
          · subst hp
            exact List.mem_cons.2 (Or.inl rfl)
        · intro p hp
          simp only [List.mem_append, List.mem_singleton] at hp ⊢
          rcases hp with hp | hp
          · exact Or.inl (hq p hp)
          · exact Or.inr hp
  | deq =>
      cases hqe : s.queue with
      | nil => exact ⟨by simpa [applyOp, queueGet, hqe] using hnd,
          by simpa [applyOp, queueGet, hqe] using hlog,
          by simp [applyOp, queueGet, hqe]⟩
      | cons q rest =>
        refine ⟨by simpa [applyOp, queueGet, hqe] using hnd,
          by simpa [applyOp, queueGet, hqe] using hlog, ?_⟩
        intro p hp
        have hp' : p ∈ s.queue := by
          rw [hqe]
          have : p ∈ (applyOp s CrawlOp.deq).queue := hp
          simp only [applyOp, queueGet, hqe] at this
          exact List.mem_cons.2 (Or.inr this)
        have : p ∈ s.enqLog := hq p hp'
        simpa [applyOp, queueGet, hqe] using this

theorem visitInv_runFrom (ops : List CrawlOp) :
    ∀ s : CrawlerVisitState, VisitInv s → VisitInv (runFrom s ops) := by
  induction ops with
  | nil => intro s h; exact h
  | cons op rest ih =>
      intro s h
      exact ih (applyOp s op) (visitInv_applyOp s op h)

theorem visitInv_runOps (ops : List CrawlOp) : VisitInv (runOps ops) :=
  visitInv_runFrom ops CrawlerVisitState.init visitInv_init

/-- C1: (1) a `_try_visit` on a URL no earlier event touched returns `True`;
(2) after any `_try_visit` on a URL, every later `_try_visit` on it returns
`False`, whatever happens in between — so exactly the first call returns
`True`; (3)/(4) `_enqueue` appends the `(url, kind)` pair to the queue (and
the put-log) exactly when the URL was unvisited, i.e. when its first-time
`_try_visit` succeeds, and is a no-op otherwise; (5) the URLs ever put on
the queue over a whole run are pairwise distinct; (6) any pair a worker
dequeues has a URL already in the visited set. -/
theorem c1_admit_enqueue_dedup :
    (∀ (ops : List CrawlOp) (u : String),
        (∀ op ∈ ops, opTouches u op = false) →
        (_try_visit (runOps ops) u).1 = true) ∧
    (∀ (s : CrawlerVisitState) (u : String) (ops : List CrawlOp),
        (_try_visit (runFrom (_try_visit s u).2 ops) u).1 = false) ∧
    (∀ (s : CrawlerVisitState) (u : String) (t : UrlType),
        u ∉ s.visited →
        _enqueue s u t =
          { s with visited := u :: s.visited
                   queue := s.queue ++ [(u, t)]
                   enqLog := s.enqLog ++ [(u, t)] }) ∧
    (∀ (s : CrawlerVisitState) (u : String) (t : UrlType),
        u ∈ s.visited → _enqueue s u t = s) ∧
    (∀ ops : List CrawlOp, ((runOps ops).enqLog.map Prod.fst).Nodup) ∧
    (∀ (ops : List CrawlOp) (p : String × UrlType) (s' : CrawlerVisitState),
        queueGet (runOps ops) = some (p, s') → p.1 ∈ (runOps ops).visited) := by
  refine ⟨?_, ?_, ?_, ?_, ?_, ?_⟩
  · intro ops u h
    rw [try_visit_true_iff]
    exact visited_untouched_runFrom ops CrawlerVisitState.init u
      (by simp [CrawlerVisitState.init]) h
  · intro s u ops
    have h1 : u ∈ (runFrom (_try_visit s u).2 ops).visited :=
      visited_mono_runFrom ops (_try_visit s u).2 u
        (mem_visited_after_try_visit s u)
    rcases hb : (_try_visit (runFrom (_try_visit s u).2 ops) u).1 with _ | _
    · rfl
    · exact absurd ((try_visit_true_iff _ u).1 hb) (by simp [h1])
  · intro s u t h
    simp [_enqueue, _try_visit, h]
  · intro s u t h
    simp [_enqueue, _try_visit, h]
  · intro ops
    exact (visitInv_runOps ops).1
  · intro ops p s' hget
    obtain ⟨_, hlog, hq⟩ := visitInv_runOps ops
    cases hqe : (runOps ops).queue with
    | nil => simp [queueGet, hqe] at hget
    | cons q rest =>
        simp only [queueGet, hqe, Option.some_inj] at hget
        have hpq : q = p := congrArg Prod.fst hget
        exact hlog p (hq p (by rw [hqe, ← hpq]; exact List.mem_cons_self q rest))

theorem c1_admit_enqueue_dedup_witness :
    (_try_visit (runOps [CrawlOp.enq "b" UrlType.AIRLINE]) "a").1 = true ∧
    "a" ∈ (runOps [CrawlOp.enq "a" UrlType.COUNTRY]).visited :=
  ⟨c1_admit_enqueue_dedup.1 [CrawlOp.enq "b" UrlType.AIRLINE] "a"
      (by intro op hop; simp at hop; subst hop; decide),
    c1_admit_enqueue_dedup.2.2.2.2.2 [CrawlOp.enq "a" UrlType.COUNTRY]
      ("a", UrlType.COUNTRY)
      ⟨["a"], [], [("a", UrlType.COUNTRY)]⟩
      (by decide)⟩

/-! ## C8 — per-item fault isolation in the detail handler -/

/-- C8: when the fetched page is non-empty and either parsing raises or the
database save raises, `_process_detail` catches the exception inside the
handler, increments the db-error counter by exactly one, changes no other
statistic, enqueues nothing — and a dequeued item whose handler raises never
terminates the worker loop, so other queued items keep being processed. -/
theorem c8_detail_error_isolation :
    (∀ (html : String)
        (parsed : Except Unit
          (Aircraft × List AircraftHistory × List AircraftAlias × List String))
        (saveOk : Bool) (st : Stats) (vs : CrawlerVisitState),
        html ≠ "" → (parsed = .error () ∨ saveOk = false) →
        _process_detail html parsed saveOk st vs =
          ({ st with db_errors := st.db_errors + 1 }, vs)) ∧
    (∀ (item : String × UrlType) (r : Bool),
        _worker_iter ⟨false, DequeueResult.got item r⟩ = false) := by
  constructor
  · intro html parsed saveOk st vs hhtml herr
    rcases herr with herr | herr
    · subst herr
      simp [_process_detail, hhtml]
    · subst herr
      cases parsed with
      | error e => simp [_process_detail, hhtml]
      | ok v =>
          obtain ⟨a, hs, als, links⟩ := v
          simp [_process_detail, hhtml]
  · intro item r
    simp [_worker_iter]

theorem c8_detail_error_isolation_witness :
    _process_detail "x" (Except.error ()) true Stats.init
        CrawlerVisitState.init =
      ({ Stats.init with db_errors := Stats.init.db_errors + 1 },
        CrawlerVisitState.init) :=
  c8_detail_error_isolation.1 "x" (Except.error ()) true Stats.init
    CrawlerVisitState.init (by decide) (Or.inl rfl)

/-! ## C9 — deduplication keeps first occurrences in order

`list(dict.fromkeys(xs))` keeps the first occurrence of each element in
insertion order.  `firstOcc` is the structural characterisation used to
reason about `pyDedup`. -/

def firstOcc [DecidableEq α] : List α → List α
  | [] => []
  | x :: xs => x :: firstOcc (xs.filter (fun y => decide (y ≠ x)))
termination_by l => l.length
decreasing_by
  simp only [List.length_cons]
  exact Nat.lt_succ_of_le (List.filter_sublist _).length_le

theorem firstOcc_nil [DecidableEq α] : firstOcc ([] : List α) = [] := by
  simp [firstOcc]

theorem firstOcc_cons [DecidableEq α] (x : α) (xs : List α) :
    firstOcc (x :: xs) = x :: firstOcc (xs.filter (fun y => decide (y ≠ x))) := by
  simp [firstOcc]

theorem mem_firstOcc [DecidableEq α] :
    ∀ (n : Nat) (l : List α), l.length ≤ n → ∀ a, a ∈ firstOcc l ↔ a ∈ l := by
  intro n
  induction n with
  | zero =>
      intro l hl a
      rw [Nat.le_zero, List.length_eq_zero] at hl
      subst hl
      simp [firstOcc_nil]
  | succ n ih =>
      intro l hl a
      cases l with
      | nil => simp [firstOcc_nil]
      | cons x xs =>
          have hlen : (xs.filter (fun y => decide (y ≠ x))).length ≤ n :=
            le_trans (List.filter_sublist _).length_le (by simpa using hl)
          rw [firstOcc_cons]
          simp only [List.mem_cons, ih _ hlen, List.mem_filter,
            decide_eq_true_eq]
          constructor
          · rintro (rfl | ⟨ha, _⟩)
            · exact Or.inl rfl
            · exact Or.inr ha
          · rintro (rfl | ha)
            · exact Or.inl rfl
            · by_cases hax : a = x
              · exact Or.inl hax
              · exact Or.inr ⟨ha, hax⟩

theorem firstOcc_nodup [DecidableEq α] :
    ∀ (n : Nat) (l : List α), l.length ≤ n → (firstOcc l).Nodup := by
  intro n
  induction n with
  | zero =>
      intro l hl
      rw [Nat.le_zero, List.length_eq_zero] at hl
      subst hl
      simp [firstOcc_nil]
  | succ n ih =>
      intro l hl
      cases l with
      | nil => simp [firstOcc_nil]
      | cons x xs =>
          have hlen : (xs.filter (fun y => decide (y ≠ x))).length ≤ n :=
            le_trans (List.filter_sublist _).length_le (by simpa using hl)
          rw [firstOcc_cons, List.nodup_cons]
          refine ⟨?_, ih _ hlen⟩
          intro hx
          have := (mem_firstOcc n _ hlen x).1 hx
          simp [List.mem_filter] at this

theorem indexOf_filter_lt [DecidableEq α] (p : α → Bool) :
    ∀ (l : List α) (a b : α), a ∈ l.filter p → b ∈ l.filter p →
      (l.filter p).indexOf a < (l.filter p).indexOf b →
      l.indexOf a < l.indexOf b := by
  intro l
  induction l with
  | nil => intro a b ha; simp at ha
  | cons x xs ih =>
      intro a b ha hb hab
      by_cases hpx : p x
      · rw [List.filter_cons_of_pos hpx] at ha hb hab
        by_cases hax : a = x
        · subst hax
          have hba : b ≠ a := by
            intro h
            subst h
            simp [List.indexOf_cons_self] at hab
          rw [List.indexOf_cons_self]
          rw [List.indexOf_cons_ne _ (Ne.symm hba)]
          exact Nat.succ_pos _
        · have hbx : b ≠ x := by
            intro h
            subst h
            rw [List.indexOf_cons_self] at hab
            exact absurd hab (Nat.not_lt_zero _)
          rw [List.indexOf_cons_ne _ (Ne.symm hax),
            List.indexOf_cons_ne _ (Ne.symm hbx)] at hab
          rw [List.indexOf_cons_ne _ (Ne.symm hax),
            List.indexOf_cons_ne _ (Ne.symm hbx)]
          have ha' : a ∈ xs.filter p := by
            rcases List.mem_cons.1 ha with h | h
            · exact absurd h hax
            · exact h
          have hb' : b ∈ xs.filter p := by
            rcases List.mem_cons.1 hb with h | h
            · exact absurd h hbx
            · exact h
          exact Nat.succ_lt_succ (ih a b ha' hb' (Nat.lt_of_succ_lt_succ hab))
      · rw [List.filter_cons_of_neg hpx] at ha hb hab
        have hax : a ≠ x := by
          intro h
          subst h
          exact hpx (List.mem_filter.1 ha).2
        have hbx : b ≠ x := by
          intro h
          subst h
          exact hpx (List.mem_filter.1 hb).2
        rw [List.indexOf_cons_ne _ (Ne.symm hax),
          List.indexOf_cons_ne _ (Ne.symm hbx)]
        exact Nat.succ_lt_succ (ih a b ha hb hab)

theorem firstOcc_pairwise [DecidableEq α] :
    ∀ (n : Nat) (l : List α), l.length ≤ n →
      List.Pairwise (fun a b => l.indexOf a < l.indexOf b) (firstOcc l) := by
  intro n
  induction n with
  | zero =>
      intro l hl
      rw [Nat.le_zero, List.length_eq_zero] at hl
      subst hl
      simp [firstOcc_nil]
  | succ n ih =>
      intro l hl
      cases l with
      | nil => simp [firstOcc_nil]
      | cons x xs =>
          have hlen : (xs.filter (fun y => decide (y ≠ x))).length ≤ n :=
            le_trans (List.filter_sublist _).length_le (by simpa using hl)
          rw [firstOcc_cons]
          refine List.Pairwise.cons ?_ ?_
          · intro b hb
            have hb' := (mem_firstOcc n _ hlen b).1 hb
            have hbx : b ≠ x := by
              have := (List.mem_filter.1 hb').2
              simpa using this
            rw [List.indexOf_cons_self, List.indexOf_cons_ne _ (Ne.symm hbx)]
            exact Nat.succ_pos _
          · refine (ih _ hlen).imp_of_mem ?_
            intro a b ha hb hab
            have ha' := (mem_firstOcc n _ hlen a).1 ha
            have hb' := (mem_firstOcc n _ hlen b).1 hb
            have hax : a ≠ x := by
              have := (List.mem_filter.1 ha').2
              simpa using this
            have hbx : b ≠ x := by
              have := (List.mem_filter.1 hb').2
              simpa using this
            rw [List.indexOf_cons_ne _ (Ne.symm hax),
              List.indexOf_cons_ne _ (Ne.symm hbx)]
            exact Nat.succ_lt_succ
              (indexOf_filter_lt _ xs a b ha' hb' hab)

theorem pyDedupAux_eq_firstOcc [DecidableEq α] :
    ∀ (l acc : List α), pyDedupAux acc l =
      acc ++ firstOcc (l.filter (fun y => decide (y ∉ acc))) := by
  intro l
  induction l with
  | nil => intro acc; simp [pyDedupAux, firstOcc_nil]
  | cons x xs ih =>
      intro acc
      by_cases hx : x ∈ acc
      · rw [show pyDedupAux acc (x :: xs) = pyDedupAux acc xs by
          simp [pyDedupAux, hx]]
        rw [ih acc]
        have hstep : List.filter (fun y => decide (y ∉ acc)) (x :: xs) =
            List.filter (fun y => decide (y ∉ acc)) xs := by
          rw [List.filter_cons]
          simp [hx]
        rw [hstep]
      · have hfilter : List.filter (fun y => decide (y ∉ acc ++ [x])) xs =
            List.filter (fun y => decide (y ≠ x))
              (List.filter (fun y => decide (y ∉ acc)) xs) := by
          rw [List.filter_filter]
          apply List.filter_congr
          intro y _
          by_cases hyx : y = x
          · simp [hyx]
          · by_cases hya : y ∈ acc <;> simp [hyx, hya]
        rw [show pyDedupAux acc (x :: xs) = pyDedupAux (acc ++ [x]) xs by
          simp [pyDedupAux, hx]]
        rw [ih (acc ++ [x]), hfilter]
        have hstep : List.filter (fun y => decide (y ∉ acc)) (x :: xs) =
            x :: List.filter (fun y => decide (y ∉ acc)) xs := by
          rw [List.filter_cons]
          simp [hx]
        rw [hstep, firstOcc_cons, List.append_assoc, List.singleton_append]

theorem pyDedup_eq_firstOcc [DecidableEq α] (l : List α) :
    pyDedup l = firstOcc l := by
  rw [pyDedup, pyDedupAux_eq_firstOcc]
  simp

/-- `pyDedup` output has no duplicates. -/
theorem pyDedup_nodup [DecidableEq α] (l : List α) : (pyDedup l).Nodup := by
  rw [pyDedup_eq_firstOcc]
  exact firstOcc_nodup l.length l le_rfl

/-- `pyDedup` keeps exactly the elements of its input. -/
theorem pyDedup_mem [DecidableEq α] (l : List α) (a : α) :
    a ∈ pyDedup l ↔ a ∈ l := by
  rw [pyDedup_eq_firstOcc]
  exact mem_firstOcc l.length l le_rfl a

/-- `pyDedup` lists the surviving elements in order of first occurrence. -/
theorem pyDedup_pairwise [DecidableEq α] (l : List α) :
    List.Pairwise (fun a b => l.indexOf a < l.indexOf b) (pyDedup l) := by
  rw [pyDedup_eq_firstOcc]
  exact firstOcc_pairwise l.length l le_rfl

/-- C9: every link list the parsers return — country URLs, airline links,
registration links, and the alias links of the detail parser — contains no
duplicates, consists of exactly the surviving (filtered) candidate entries,
and lists them in order of first occurrence in the page (indices taken in
the corresponding pre-deduplication candidate list, which preserves document
order). -/
theorem c9_parsers_dedup_first_occurrence :
    (∀ (hrefs : List String) (rf : Option String),
        (parse_country_links hrefs rf).Nodup ∧
        (∀ a, a ∈ parse_country_links hrefs rf ↔ a ∈ countryRaw hrefs rf) ∧
        List.Pairwise
          (fun a b => (countryRaw hrefs rf).indexOf a <
            (countryRaw hrefs rf).indexOf b)
          (parse_country_links hrefs rf)) ∧
    (∀ hrefs : List String,
        (parse_airline_links hrefs).Nodup ∧
        (∀ a, a ∈ parse_airline_links hrefs ↔ a ∈ airlineRaw hrefs) ∧
        List.Pairwise
          (fun a b => (airlineRaw hrefs).indexOf a <
            (airlineRaw hrefs).indexOf b)
          (parse_airline_links hrefs)) ∧
    (∀ (h1 h2 : List String) (nx : Option String),
        (parse_aircraft_list h1 h2 nx).1.Nodup ∧
        (∀ a, a ∈ (parse_aircraft_list h1 h2 nx).1 ↔
          a ∈ aircraftListRaw h1 h2) ∧
        List.Pairwise
          (fun a b => (aircraftListRaw h1 h2).indexOf a <
            (aircraftListRaw h1 h2).indexOf b)
          (parse_aircraft_list h1 h2 nx).1) ∧
    (∀ (rows : List Row) (hex : Option String) (t : String) (a : Aircraft)
        (hs : List AircraftHistory) (als : List AircraftAlias)
        (links : List String),
        parse_aircraft_detail rows hex t = .ok (a, hs, als, links) →
        links.Nodup ∧
        (∀ x, x ∈ links ↔ x ∈ aliasLinksRaw rows t) ∧
        List.Pairwise
          (fun x y => (aliasLinksRaw rows t).indexOf x <
            (aliasLinksRaw rows t).indexOf y) links) := by
  refine ⟨?_, ?_, ?_, ?_⟩
  · intro hrefs rf
    exact ⟨pyDedup_nodup _, fun a => pyDedup_mem _ a, pyDedup_pairwise _⟩
  · intro hrefs
    exact ⟨pyDedup_nodup _, fun a => pyDedup_mem _ a, pyDedup_pairwise _⟩
  · intro h1 h2 nx
    exact ⟨pyDedup_nodup _, fun a => pyDedup_mem _ a, pyDedup_pairwise _⟩
  · intro rows hex t a hs als links h
    simp only [parse_aircraft_detail] at h
    cases hmk : Aircraft.make (pyUpper (pyStrip t))
        (detailScan rows (pyUpper (pyStrip t))).serial_number hex with
    | error e => rw [hmk] at h; exact absurd h (by simp)
    | ok air =>
        rw [hmk] at h
        simp only [Except.ok.injEq, Prod.mk.injEq] at h
        obtain ⟨-, -, -, h4⟩ := h
        subst h4
        exact ⟨pyDedup_nodup _, fun x => pyDedup_mem _ x, pyDedup_pairwise _⟩

theorem c9_parsers_dedup_first_occurrence_witness :
    ([] : List String).Nodup ∧
    (∀ x, x ∈ ([] : List String) ↔ x ∈ aliasLinksRaw [] "A") ∧
    List.Pairwise
      (fun x y => (aliasLinksRaw [] "A").indexOf x <
        (aliasLinksRaw [] "A").indexOf y) ([] : List String) :=
  c9_parsers_dedup_first_occurrence.2.2.2 [] none "A"
    ⟨"A", none, none⟩ [] [] [] rfl

/-! ## C10 — string normalisation facts

`Char.toUpper` only rewrites basic-latin lower-case letters, so it preserves
whitespace-ness and is idempotent; `str.strip()` after `upper()` after
`strip()` is therefore the identity. -/

theorem char_toNat_ofNat (n : Nat) (h : n.isValidChar) :
    (Char.ofNat n).toNat = n := by
  unfold Char.ofNat
  rw [dif_pos h]
  rfl

theorem ws_false_of_toNat (c : Char) (h32 : c.toNat ≠ 32) (h9 : c.toNat ≠ 9)
    (h13 : c.toNat ≠ 13) (h10 : c.toNat ≠ 10) : c.isWhitespace = false := by
  unfold Char.isWhitespace
  simp only [Bool.or_eq_false_iff, decide_eq_false_iff_not]
  refine ⟨⟨⟨?_, ?_⟩, ?_⟩, ?_⟩ <;> intro h
  · exact h32 (by rw [h]; decide)
  · exact h9 (by rw [h]; decide)
  · exact h13 (by rw [h]; decide)
  · exact h10 (by rw [h]; decide)

theorem toUpper_isWhitespace (c : Char) :
    (Char.toUpper c).isWhitespace = c.isWhitespace := by
  by_cases h : c.toNat ≥ 97 ∧ c.toNat ≤ 122
  · have hin : Char.toUpper c = Char.ofNat (c.toNat - 32) := by
      simp only [Char.toUpper]
      rw [if_pos h]
    have h1 : (Char.ofNat (c.toNat - 32)).toNat = c.toNat - 32 :=
      char_toNat_ofNat _ (Or.inl (by omega))
    rw [hin,
      ws_false_of_toNat _ (by omega) (by omega) (by omega) (by omega),
      ws_false_of_toNat c (by omega) (by omega) (by omega) (by omega)]
  · have hin : Char.toUpper c = c := by
      simp only [Char.toUpper]
      rw [if_neg h]
    rw [hin]

theorem toUpper_toUpper (c : Char) :
    Char.toUpper (Char.toUpper c) = Char.toUpper c := by
  by_cases h : c.toNat ≥ 97 ∧ c.toNat ≤ 122
  · have hin : Char.toUpper c = Char.ofNat (c.toNat - 32) := by
      simp only [Char.toUpper]
      rw [if_pos h]
    have h1 : (Char.ofNat (c.toNat - 32)).toNat = c.toNat - 32 :=
      char_toNat_ofNat _ (Or.inl (by omega))
    rw [hin]
    simp only [Char.toUpper, h1]
    rw [if_neg]
    omega
  · have hin : Char.toUpper c = c := by
      simp only [Char.toUpper]
      rw [if_neg h]
    rw [hin, hin]

theorem dropWhile_idem (p : Char → Bool) (l : List Char) :
    (l.dropWhile p).dropWhile p = l.dropWhile p := by
  induction l with
  | nil => rfl
  | cons x xs ih =>
      by_cases h : p x
      · rw [List.dropWhile_cons_of_pos h]
        exact ih
      · rw [List.dropWhile_cons_of_neg h, List.dropWhile_cons_of_neg h]

theorem dropWhile_eq_self_of_prefix (p : Char → Bool) (A B : List Char)
    (hA : A.dropWhile p = A) (hpre : B <+: A) : B.dropWhile p = B := by
  cases B with
  | nil => rfl
  | cons b B' =>
      obtain ⟨rest, hrest⟩ := hpre
      have hAeq : A = b :: (B' ++ rest) := by rw [← hrest]; simp
      have hb : ¬ p b = true := by
        intro hpb
        rw [hAeq, List.dropWhile_cons_of_pos hpb] at hA
        have hlen := congrArg List.length hA
        have hle : ((B' ++ rest).dropWhile p).length ≤ (B' ++ rest).length :=
          (List.dropWhile_sublist _).length_le
        simp only [List.length_cons] at hlen
        omega
      exact List.dropWhile_cons_of_neg hb

theorem stripChars_dropWhile (l : List Char) :
    (stripChars l).dropWhile Char.isWhitespace = stripChars l := by
  apply dropWhile_eq_self_of_prefix Char.isWhitespace (stripLeft l)
  · exact dropWhile_idem _ _
  · have hsuf : (stripLeft l).reverse.dropWhile Char.isWhitespace <:+
        (stripLeft l).reverse := List.dropWhile_suffix _
    have := List.reverse_prefix.2 hsuf
    simpa [stripChars] using this

theorem stripChars_idem (l : List Char) :
    stripChars (stripChars l) = stripChars l := by
  have h1 := stripChars_dropWhile l
  have h2 : (stripChars l).reverse.dropWhile Char.isWhitespace =
      (stripChars l).reverse := by
    have hrev : (stripChars l).reverse =
        (stripLeft l).reverse.dropWhile Char.isWhitespace :=
      List.reverse_reverse _
    rw [hrev]
    exact dropWhile_idem _ _
  calc stripChars (stripChars l)
      = (((stripChars l).dropWhile Char.isWhitespace).reverse.dropWhile
          Char.isWhitespace).reverse := rfl
    _ = ((stripChars l).reverse.dropWhile Char.isWhitespace).reverse := by
        rw [h1]
    _ = (stripChars l).reverse.reverse := by rw [h2]
    _ = stripChars l := List.reverse_reverse _

theorem dropWhile_map_upper (l : List Char) :
    (l.map Char.toUpper).dropWhile Char.isWhitespace =
      (l.dropWhile Char.isWhitespace).map Char.toUpper := by
  induction l with
  | nil => rfl
  | cons c cs ih =>
      by_cases h : c.isWhitespace
      · have h' : (Char.toUpper c).isWhitespace = true := by
          rw [toUpper_isWhitespace]
          exact h
        rw [List.map_cons, List.dropWhile_cons_of_pos h',
          List.dropWhile_cons_of_pos h, ih]
      · have h' : ¬ (Char.toUpper c).isWhitespace = true := by
          rw [toUpper_isWhitespace]
          exact h
        rw [List.map_cons, List.dropWhile_cons_of_neg h',
          List.dropWhile_cons_of_neg h, List.map_cons]

theorem stripChars_map_upper (l : List Char) :
    stripChars (l.map Char.toUpper) = (stripChars l).map Char.toUpper := by
  show ((((l.map Char.toUpper).dropWhile Char.isWhitespace).reverse).dropWhile
      Char.isWhitespace).reverse = _
  rw [dropWhile_map_upper, ← List.map_reverse, dropWhile_map_upper,
    ← List.map_reverse]
  rfl

theorem pyStrip_pyUpper_pyStrip (s : String) :
    pyStrip (pyUpper (pyStrip s)) = pyUpper (pyStrip s) := by
  show (⟨stripChars ((stripChars s.data).map Char.toUpper)⟩ : String) =
    ⟨(stripChars s.data).map Char.toUpper⟩
  rw [stripChars_map_upper, stripChars_idem]

theorem pyUpper_pyUpper (s : String) : pyUpper (pyUpper s) = pyUpper s := by
  show (⟨(s.data.map Char.toUpper).map Char.toUpper⟩ : String) =
    ⟨s.data.map Char.toUpper⟩
  rw [List.map_map]
  rw [show Char.toUpper ∘ Char.toUpper = Char.toUpper from funext toUpper_toUpper]

theorem pyUpper_eq_empty_iff (s : String) : pyUpper s = "" ↔ s = "" := by
  constructor
  · intro h
    have hdata : s.data.map Char.toUpper = [] := congrArg String.data h
    have hnil : s.data = [] := List.map_eq_nil_iff.1 hdata
    cases s with
    | mk data =>
        simp only at hnil
        subst hnil
        rfl
  · intro h
    rw [h]
    rfl

/-- The normalisation `target_reg.strip().upper()` is idempotent. -/
theorem pyNormalize_idem (s : String) :
    pyUpper (pyStrip (pyUpper (pyStrip s))) = pyUpper (pyStrip s) := by
  rw [pyStrip_pyUpper_pyStrip, pyUpper_pyUpper]

theorem processRow_aliases (tgt : String) (acc : DetailAcc) (row : Row) :
    ∀ x ∈ (processRow tgt acc row).aliases,
      x ∈ acc.aliases ∨ ∃ al, AircraftAlias.make tgt al = .ok x := by
  intro x hx
  cases row with
  | none => exact Or.inl hx
  | some d =>
      simp only [processRow] at hx
      split at hx
      · -- foreign-registration branch: aliases = newAliases
        rcases hmk : AircraftAlias.make tgt
            (match d.regNode with
              | some rn => pyUpper (_clean rn.text)
              | none => tgt) with e | a
        · rw [hmk] at hx
          exact Or.inl hx
        · rw [hmk] at hx
          have hx' : x ∈ acc.aliases ++ [a] := hx
          rcases List.mem_append.1 hx' with hmem | hmem
          · exact Or.inl hmem
          · simp only [List.mem_singleton] at hmem
            subst hmem
            exact Or.inr ⟨_, hmk⟩
      · -- own-registration branch: aliases unchanged
        have hx' : x ∈ acc.aliases := by
          split at hx
          · exact hx
          · split at hx
            · exact hx
            · exact hx
        exact Or.inl hx'

theorem detailScan_aliases (tgt : String) (rows : List Row) :
    ∀ (acc : DetailAcc),
      (∀ x ∈ acc.aliases, ∃ al, AircraftAlias.make tgt al = .ok x) →
      ∀ x ∈ (rows.foldl (processRow tgt) acc).aliases,
        ∃ al, AircraftAlias.make tgt al = .ok x := by
  induction rows with
  | nil => intro acc hacc x hx; exact hacc x hx
  | cons row rest ih =>
      intro acc hacc x hx
      refine ih (processRow tgt acc row) ?_ x hx
      intro y hy
      rcases processRow_aliases tgt acc row y hy with hmem | hmk
      · exact hacc y hmem
      · exact hmk

/-- What `AircraftAlias.__post_init__` guarantees about a record it accepts. -/
theorem aircraftAlias_make_ok (base al : String) (x : AircraftAlias)
    (h : AircraftAlias.make base al = .ok x) :
    x.base_registration = pyUpper (pyStrip base) ∧
    x.alias_registration ≠ x.base_registration := by
  unfold AircraftAlias.make at h
  by_cases h1 : pyStrip base = ""
  · rw [if_pos h1] at h
    simp at h
  · rw [if_neg h1] at h
    by_cases h2 : pyStrip al = ""
    · rw [if_pos h2] at h
      simp at h
    · rw [if_neg h2] at h
      by_cases h3 : pyUpper (pyStrip base) = pyUpper (pyStrip al)
      · rw [if_pos h3] at h
        simp at h
      · rw [if_neg h3] at h
        simp only [Except.ok.injEq] at h
        subst h
        exact ⟨rfl, fun hc => h3 (hc.symm)⟩

/-- What `Aircraft.__post_init__` does to the registration number. -/
theorem aircraft_make_ok (reg : String) (serial hex : Option String)
    (x : Aircraft) (h : Aircraft.make reg serial hex = .ok x) :
    x.registration_number = pyUpper (pyStrip reg) := by
  unfold Aircraft.make at h
  by_cases h1 : pyStrip reg = ""
  · rw [if_pos h1] at h
    simp at h
  · rw [if_neg h1] at h
    simp only [Except.ok.injEq] at h
    subst h
    rfl

theorem aircraft_make_ok_of_ne (reg : String) (serial hex : Option String)
    (h : pyStrip reg ≠ "") :
    ∃ x, Aircraft.make reg serial hex = .ok x := by
  unfold Aircraft.make
  rw [if_neg h]
  exact ⟨_, rfl⟩

/-- The pair of registrations identifying an alias row. -/
def aliasPair (a : AircraftAlias) : String × String :=
  (a.base_registration, a.alias_registration)

theorem dedupAliasPairsAux_mem :
    ∀ (l : List AircraftAlias) (seen : List (String × String))
      (out : List AircraftAlias) (x : AircraftAlias),
      x ∈ dedupAliasPairsAux seen out l → x ∈ out ∨ x ∈ l := by
  intro l
  induction l with
  | nil => intro seen out x hx; exact Or.inl hx
  | cons a rest ih =>
      intro seen out x hx
      simp only [dedupAliasPairsAux] at hx
      split at hx
      · rcases ih _ _ _ hx with hmem | hmem
        · exact Or.inl hmem
        · exact Or.inr (List.mem_cons.2 (Or.inr hmem))
      · rcases ih _ _ _ hx with hmem | hmem
        · rcases List.mem_append.1 hmem with hmem | hmem
          · exact Or.inl hmem
          · simp only [List.mem_singleton] at hmem
            exact Or.inr (List.mem_cons.2 (Or.inl hmem))
        · exact Or.inr (List.mem_cons.2 (Or.inr hmem))

theorem dedupAliasPairsAux_nodup :
    ∀ (l : List AircraftAlias) (seen : List (String × String))
      (out : List AircraftAlias),
      (out.map aliasPair).Nodup → (∀ x ∈ out, aliasPair x ∈ seen) →
      ((dedupAliasPairsAux seen out l).map aliasPair).Nodup := by
  intro l
  induction l with
  | nil => intro seen out hnd _; exact hnd
  | cons a rest ih =>
      intro seen out hnd hseen
      simp only [dedupAliasPairsAux]
      split
      · exact ih _ _ hnd hseen
      · rename_i hnotseen
        refine ih _ _ ?_ ?_
        · rw [List.map_append]
          refine List.Nodup.append hnd (List.nodup_singleton _) ?_
          intro p hp hq
          simp only [List.map_cons, List.map_nil, List.mem_singleton] at hq
          subst hq
          rcases List.mem_map.1 hp with ⟨y, hy, hyp⟩
          have hps : aliasPair a ∈ seen := hyp ▸ hseen y hy
          exact hnotseen hps
        · intro y hy
          rcases List.mem_append.1 hy with hmem | hmem
          · exact List.mem_cons.2 (Or.inr (hseen y hmem))
          · simp only [List.mem_singleton] at hmem
            subst hmem
            exact List.mem_cons.2 (Or.inl rfl)

theorem dedupAliasPairs_mem (l : List AircraftAlias) (x : AircraftAlias)
    (h : x ∈ dedupAliasPairs l) : x ∈ l := by
  rcases dedupAliasPairsAux_mem l [] [] x h with hmem | hmem
  · simp at hmem
  · exact hmem

theorem dedupAliasPairs_nodup (l : List AircraftAlias) :
    ((dedupAliasPairs l).map aliasPair).Nodup := by
  refine dedupAliasPairsAux_nodup l [] [] (by simp) ?_
  intro x hx
  simp at hx

/-- C10 (counterexample): the claim quantifies over every target
registration, but a target that strips to the empty string makes the
`Aircraft` dataclass raise `ValueError` (uncaught inside
`parse_aircraft_detail`), so no `Aircraft` is returned at all. -/
theorem c10_detail_counterexample :
    parse_aircraft_detail [] none "" =
      Except.error "registration_number must not be empty" := rfl

/-- C10 (amended): for every row list and every target registration that is
non-empty after stripping, `parse_aircraft_detail` returns an `Aircraft`
whose `registration_number` is the stripped upper-cased target; every
`AircraftAlias` in the returned list has `base_registration` equal to that
same normalised registration and `alias_registration` different from it; and
no two returned aliases share the same
`(base_registration, alias_registration)` pair. -/
theorem c10_detail_registration_aliases (rows : List Row) (hex : Option String)
    (t : String) (ht : pyStrip t ≠ "") :
    ∃ a hs als links,
      parse_aircraft_detail rows hex t = .ok (a, hs, als, links) ∧
      a.registration_number = pyUpper (pyStrip t) ∧
      (∀ al ∈ als,
        al.base_registration = pyUpper (pyStrip t) ∧
        al.alias_registration ≠ al.base_registration) ∧
      (als.map aliasPair).Nodup := by
  have htne : pyStrip (pyUpper (pyStrip t)) ≠ "" := by
    rw [pyStrip_pyUpper_pyStrip]
    intro hc
    exact ht ((pyUpper_eq_empty_iff _).1 hc)
  obtain ⟨air, hair⟩ := aircraft_make_ok_of_ne (pyUpper (pyStrip t))
    (detailScan rows (pyUpper (pyStrip t))).serial_number hex htne
  refine ⟨air, (detailScan rows (pyUpper (pyStrip t))).histories,
    dedupAliasPairs (detailScan rows (pyUpper (pyStrip t))).aliases,
    pyDedup (detailScan rows (pyUpper (pyStrip t))).alias_links,
    ?_, ?_, ?_, ?_⟩
  · simp only [parse_aircraft_detail]
    rw [hair]
  · rw [aircraft_make_ok _ _ _ _ hair]
    exact pyNormalize_idem t
  · intro al hal
    have hal' : al ∈ (detailScan rows (pyUpper (pyStrip t))).aliases :=
      dedupAliasPairs_mem _ al hal
    obtain ⟨src, hmk⟩ := detailScan_aliases (pyUpper (pyStrip t)) rows
      DetailAcc.init (by intro x hx; simp [DetailAcc.init] at hx) al hal'
    obtain ⟨hb, hne⟩ := aircraftAlias_make_ok _ src al hmk
    refine ⟨?_, hne⟩
    rw [hb]
    exact pyNormalize_idem t
  · exact dedupAliasPairs_nodup _

theorem c10_detail_registration_aliases_witness :
    pyStrip " ja8089 " ≠ "" ∧
    ∃ a hs als links,
      parse_aircraft_detail [] none " ja8089 " = .ok (a, hs, als, links) ∧
      a.registration_number = pyUpper (pyStrip " ja8089 ") ∧
      (∀ al ∈ als,
        al.base_registration = pyUpper (pyStrip " ja8089 ") ∧
        al.alias_registration ≠ al.base_registration) ∧
      (als.map aliasPair).Nodup :=
  ⟨by decide,
    c10_detail_registration_aliases [] none " ja8089 " (by decide)⟩
